import Mathlib

/-!
Verification of the Adaptive Exam Session and Grading Engine of the
ai_assessment_tool repository (an online examination platform).

The embedding below follows the sources:
* DESIGN_DOCUMENT.md section 7 gives the grading-threshold logic
  (SemanticGradingAgent.grade_answer) and the ability update rule
  (AdaptiveMCQAgent.update_performance); those are translated directly.
* The frontend sources give the proctoring infraction logic
  (unnamed/part_002 handleVisibilityChange), the review client
  (TeacherDashboard.tsx) and the result views (unnamed/part_005,
  unnamed/part_006 alias Results.tsx, TeacherDashboard.tsx).
* The backend orchestrator, adaptive engine and review ledger modules are
  not part of the provided sources; where a definition depends on them it
  is modelled from the specification and marked as such in its doc
  comment.

Machine reals (Python floats, JS numbers) are embedded as rationals:
every quantity involved (similarities, difficulties, scores, the 0.1
ability step) is exactly representable and no float rounding is
exercised by the claims under study.
-/

namespace Assessment

/-! ## Answer grading: similarity tiers -/

/-- Tier mapping of SemanticGradingAgent.grade_answer
(DESIGN_DOCUMENT.md section 7 A): strict greater-than comparisons at the
fixed thresholds 0.85, 0.65 and 0.4, returning the raw tier percentage
100, 80, 40 or 0. -/
def gradeAnswerScore (similarity : ℚ) : ℕ :=
  if similarity > 85/100 then 100
  else if similarity > 65/100 then 80
  else if similarity > 4/10 then 40
  else 0

/-- Modelled from the spec: the grading pipeline applies the achieved
tier percentage as a fraction of the point value of the item (the
backend module holding this scaling step is not in the provided sources;
the design-document sketch stops at the raw percentage, while the
teacher dashboard displays per-answer scores against per-item maxima). -/
def gradeFreeText (points : ℕ) (similarity : ℚ) : ℚ :=
  (points : ℚ) * (gradeAnswerScore similarity : ℚ) / 100

/-- Modelled from the spec: feedback text templated from the achieved
similarity tier, using the same strict thresholds as gradeAnswerScore. -/
def tierFeedback (similarity : ℚ) : String :=
  if similarity > 85/100 then "Strong match with expected answer"
  else if similarity > 65/100 then "Partial match"
  else if similarity > 4/10 then "Limited match"
  else "No match"

/-! ## Answer grading: multiple choice -/

/-- Case-insensitive trimmed normalisation of a choice value: leading
and trailing whitespace removed, every character lowercased (the
character-list model of trim followed by toLowerCase). -/
def normalizeChoice (s : String) : String :=
  String.mk
    (((s.data.dropWhile Char.isWhitespace).reverse.dropWhile
        Char.isWhitespace).reverse.map Char.toLower)

/-- Modelled from the spec: multiple-choice grading of the Answer Grader
(the backend grading module is not in the provided sources): full points
exactly on a case-insensitive trimmed match with the stored correct
choice, otherwise 0, with a fixed feedback string either way. -/
def gradeMCQ (points : ℕ) (correctChoice submitted : String) : ℕ × String :=
  if normalizeChoice submitted = normalizeChoice correctChoice
  then (points, "Correct") else (0, "Incorrect")

/-! ## Adaptive engine -/

/-- Ability update rule of AdaptiveMCQAgent.update_performance
(DESIGN_DOCUMENT.md section 7 B): a correct response moves the estimate
up by the 0.1 learning rate capped at 1.0, an incorrect one moves it
down by 0.1 floored at 0.1. -/
def update_performance (theta : ℚ) (isCorrect : Bool) : ℚ :=
  if isCorrect then min 1 (theta + 1/10) else max (1/10) (theta - 1/10)

/-- Modelled from the spec: the orchestrator (not in the provided
sources) counts a response as a success when its score is at least 60
percent of the max points of the item and feeds that Boolean into
update_performance. -/
def abilityStep (theta ratio : ℚ) : ℚ :=
  update_performance theta (decide (3/5 ≤ ratio))

/-- Modelled from the spec: the ability estimate of a submission starts
at 0.5 and is updated by abilityStep after each graded response, in
order. -/
def abilityEstimate (ratios : List ℚ) : ℚ :=
  ratios.foldl abilityStep (1/2)

/-- Item of the item bank: identity, difficulty in [0,1], point value,
and the grading metadata of the spec data model. -/
structure Item where
  id : ℕ
  questionText : String
  difficulty : ℚ
  points : ℕ
  correctChoice : String
  referenceAnswer : String
deriving Repr, DecidableEq

/-- Absolute distance between the difficulty of an item and the current
ability estimate. -/
def itemDist (ability : ℚ) (q : Item) : ℚ := |q.difficulty - ability|

/-- Of two items, keep the one closer to the target ability, breaking
distance ties by the lower item identity. -/
def pickBetter (ability : ℚ) (best q : Item) : Item :=
  if itemDist ability q < itemDist ability best ∨
      (itemDist ability q = itemDist ability best ∧ q.id < best.id)
  then q else best

/-- Unserved part of the pool. -/
def candidatesOf (pool : List Item) (served : List ℕ) : List Item :=
  pool.filter (fun q => decide (q.id ∉ served))

/-- Modelled from the spec: select_next of the Difficulty Adjuster (the
backend adaptive engine is not in the provided sources; the
design-document sketch of get_next_question assumes a pre-filtered
nonempty list). The pool is filtered to unserved items; an empty result
yields none, otherwise the item of minimal difficulty distance, ties
broken by lowest identity. -/
def selectNext (pool : List Item) (served : List ℕ) (ability : ℚ) : Option Item :=
  match candidatesOf pool served with
  | [] => none
  | c :: cs => some (cs.foldl (pickBetter ability) c)

/-! ## Exam session state and review ledger -/

/-- Lifecycle states of a submission. -/
inductive SubmissionStatus
  | notStarted
  | inProgress
  | completed
  | finalized
deriving Repr, DecidableEq

/-- Answer record of a submission: identity, item reference, current
score (starting at the AI score, overridable by a teacher), the point
maximum of the item, and teacher remarks. -/
structure Answer where
  answerId : ℕ
  itemId : ℕ
  currentScore : ℚ
  maxPoints : ℕ
  teacherRemarks : String
deriving Repr, DecidableEq

/-- Submission record of one student attempt: status, proctoring
configuration and infraction count, the item ids served so far, the
answers recorded so far, the running total, the finalization gate and
the remaining time in seconds. -/
structure Submission where
  status : SubmissionStatus
  proctoringEnabled : Bool
  infractionCount : ℕ
  served : List ℕ
  answers : List Answer
  totalScore : ℚ
  isFinalized : Bool
  timeRemaining : ℕ
deriving Repr, DecidableEq

/-- Served item ids that have no recorded answer yet. -/
def unansweredServed (s : Submission) : List ℕ :=
  s.served.filter (fun i => decide (∀ a ∈ s.answers, a.itemId ≠ i))

/-- Zero-scored answer recorded for a served but unanswered item when an
attempt is force-completed. -/
def zeroAnswer (i : ℕ) : Answer :=
  { answerId := 0, itemId := i, currentScore := 0, maxPoints := 0, teacherRemarks := "" }

/-- Modelled from the spec: the completion path of the Exam Session
State Machine (the backend finish handler is not in the provided
sources; the frontend calls examsApi.finishExam). Every served item
without a recorded answer is scored 0, the status becomes completed and
the total is the sum of the current scores. -/
def finishExam (s : Submission) : Submission :=
  let filled := s.answers ++ (unansweredServed s).map zeroAnswer
  { s with status := .completed, answers := filled,
           totalScore := (filled.map Answer.currentScore).sum }

/-- Modelled from the spec: the timeout transition forces the completion
path regardless of how many items were answered. -/
def sessionTimeout (s : Submission) : Submission := finishExam s

/-- Infraction handling following handleVisibilityChange of the exam
page (src/unnamed/part_002, lines 796-816): with proctoring enabled each
infraction increments the count, and when the count reaches 5 the exam
is finished through the same handleFinishExam path that the timer at
zero invokes; otherwise only a warning is shown. Without proctoring the
handler is not installed. -/
def record_infraction (s : Submission) : Submission :=
  if s.proctoringEnabled then
    let next := s.infractionCount + 1
    if 5 ≤ next then finishExam { s with infractionCount := next }
    else { s with infractionCount := next }
  else s

/-- Error kinds of the review ledger. -/
inductive ReviewError
  | alreadyFinalized
  | scoreOutOfRange
deriving Repr, DecidableEq

/-- One per-answer override of a review request. -/
structure ScoreOverride where
  answerId : ℕ
  score : ℚ
  remarks : String
deriving Repr, DecidableEq

/-- First override of a request naming a given answer. -/
def findOverride (overrides : List ScoreOverride) (aid : ℕ) : Option ScoreOverride :=
  overrides.find? (fun o => o.answerId == aid)

/-- An override is out of range when the answer it names exists and the
override score is negative or exceeds the point maximum of that answer. -/
def overrideOutOfRange (s : Submission) (o : ScoreOverride) : Bool :=
  match s.answers.find? (fun a => a.answerId == o.answerId) with
  | some a => decide (o.score < 0 ∨ (a.maxPoints : ℚ) < o.score)
  | none => false

/-- Modelled from the spec: apply_review of the Review and Finalization
Ledger (the backend review handler is not in the provided sources; the
frontend ReviewSubmission.handleSubmitReview posts exactly these
fields). It fails with AlreadyFinalized on a finalized submission, then
with ScoreOutOfRange when any override score is negative or exceeds the
point maximum of the answer it names; otherwise each override is applied
to the current score and remarks of its answer, the total is recomputed
as the sum of current scores, and when finalize is set the one-way
finalization gate and status are set. -/
def apply_review (s : Submission) (overrides : List ScoreOverride) (finalize : Bool) :
    Except ReviewError Submission :=
  if s.isFinalized then .error .alreadyFinalized
  else if overrides.any (overrideOutOfRange s) then .error .scoreOutOfRange
  else
    let newAnswers := s.answers.map (fun a =>
      match findOverride overrides a.answerId with
      | some o => { a with currentScore := o.score, teacherRemarks := o.remarks }
      | none => a)
    .ok { s with
          answers := newAnswers,
          totalScore := (newAnswers.map Answer.currentScore).sum,
          isFinalized := finalize || s.isFinalized,
          status := if finalize then .finalized else s.status }

/-! ## Result views -/

/-- Passed flag of the detailed result view
(src/unnamed/part_005, line 57): percentage at least 40, a hardcoded
constant. -/
def viewDetailedResultPassed (percentage : ℚ) : Bool :=
  decide (40 ≤ percentage)

/-- PASSED badge of the teacher review page (TeacherDashboard.tsx,
lines 538-540): percentage at least 40, a hardcoded constant. -/
def teacherReviewPassedBadge (percentage : ℚ) : Bool :=
  decide (40 ≤ percentage)

/-- Math.round of JavaScript on the nonnegative percentages shown by
the results page: nearest integer, halves rounded up. -/
def jsRound (x : ℚ) : ℤ := ⌊x + 1/2⌋

/-- Passed flag of the results page (src/unnamed/part_006, lines 29-30,
identical to Results.tsx, line 33): the passed flag delivered by the
backend result, or else the rounded percentage at least 40. -/
def resultsPassed (backendPassed : Bool) (percentage : ℚ) : Bool :=
  backendPassed || decide (40 ≤ jsRound percentage)

/-! ## Auxiliary order used to reason about the selection rule -/

/-- Lexicographic comparison underlying the selection rule: closer to
the target ability first, lower identity on equal distance. -/
def leLex (ability : ℚ) (q p : Item) : Prop :=
  itemDist ability q ≤ itemDist ability p
  ∧ (itemDist ability p = itemDist ability q → q.id ≤ p.id)

/-! ## Concrete sample data used to instantiate the theorems -/

/-- Demo item with the higher identity of a pair of equal difficulty. -/
def demoItemHigh : Item :=
  { id := 2, questionText := "What is the powerhouse of the cell?",
    difficulty := 1/2, points := 5, correctChoice := "B",
    referenceAnswer := "Mitochondria is the powerhouse of the cell" }

/-- Demo item with the lower identity of a pair of equal difficulty. -/
def demoItemLow : Item :=
  { id := 1, questionText := "Name the basic unit of life.",
    difficulty := 1/2, points := 5, correctChoice := "A",
    referenceAnswer := "The cell is the basic unit of life" }

/-- Demo in-progress proctored submission sitting at four infractions
with one served, unanswered item and plenty of time left. -/
def proctorDemo : Submission :=
  { status := .inProgress, proctoringEnabled := true, infractionCount := 4,
    served := [7], answers := [], totalScore := 0, isFinalized := false,
    timeRemaining := 1000 }

/-- Demo completed, not yet finalized submission with one answer scored
8 out of 10. -/
def reviewDemo : Submission :=
  { status := .completed, proctoringEnabled := false, infractionCount := 0,
    served := [3],
    answers := [{ answerId := 1, itemId := 3, currentScore := 8,
                  maxPoints := 10, teacherRemarks := "" }],
    totalScore := 8, isFinalized := false, timeRemaining := 0 }

/-- Demo override raising the score of answer 1 from 8 to 10. -/
def reviewDemoOverride : ScoreOverride :=
  { answerId := 1, score := 10, remarks := "full credit" }

/-- State of reviewDemo after applying reviewDemoOverride with
finalize set. -/
def reviewDemoFinal : Submission :=
  { status := .finalized, proctoringEnabled := false, infractionCount := 0,
    served := [3],
    answers := [{ answerId := 1, itemId := 3, currentScore := 10,
                  maxPoints := 10, teacherRemarks := "full credit" }],
    totalScore := 10, isFinalized := true, timeRemaining := 0 }

/-- Demo override whose score 11 exceeds the 10-point maximum of
answer 1. -/
def badOverride : ScoreOverride :=
  { answerId := 1, score := 11, remarks := "" }

end Assessment

namespace Assessment

/-! ## Basic lemmas about the tier mapping -/

theorem mem_candidatesOf (pool : List Item) (served : List ℕ) (q : Item) :
    q ∈ candidatesOf pool served ↔ q ∈ pool ∧ q.id ∉ served := by
  simp [candidatesOf]

theorem candidatesOf_eq_nil (pool : List Item) (served : List ℕ) :
    candidatesOf pool served = [] ↔ ∀ q ∈ pool, q.id ∈ served := by
  constructor
  · intro h q hq
    by_contra hs
    have hmem : q ∈ candidatesOf pool served := (mem_candidatesOf pool served q).mpr ⟨hq, hs⟩
    rw [h] at hmem
    exact (List.not_mem_nil q) hmem
  · intro h
    cases hc : candidatesOf pool served with
    | nil => rfl
    | cons c cs =>
      have hmem : c ∈ candidatesOf pool served := by rw [hc]; exact List.mem_cons_self c cs
      obtain ⟨hp, hn⟩ := (mem_candidatesOf pool served c).mp hmem
      exact absurd (h c hp) hn

theorem pickBetter_eq_or (ability : ℚ) (b q : Item) :
    pickBetter ability b q = b ∨ pickBetter ability b q = q := by
  unfold pickBetter
  split_ifs with h
  · exact Or.inr rfl
  · exact Or.inl rfl

theorem foldl_pickBetter_mem (ability : ℚ) (cs : List Item) (c : Item) :
    cs.foldl (pickBetter ability) c ∈ c :: cs := by
  induction cs generalizing c with
  | nil => exact List.mem_cons_self c []
  | cons x xs ih =>
    simp only [List.foldl_cons]
    have h := ih (pickBetter ability c x)
    rcases List.mem_cons.mp h with heq | hmem
    · rcases pickBetter_eq_or ability c x with hb | hb
      · rw [heq, hb]; exact List.mem_cons_self _ _
      · rw [heq, hb]; exact List.mem_cons_of_mem _ (List.mem_cons_self _ _)
    · exact List.mem_cons_of_mem _ (List.mem_cons_of_mem _ hmem)

/-! ## C1: similarity tiers use strict thresholds -/

/-- C1: For every free-text answer, the grader maps semantic similarity
to a score tier using strict greater-than comparisons at the fixed
thresholds: similarity > 0.85 yields the 100 percent tier, > 0.65 the
80 percent tier, > 0.40 the 40 percent tier, and otherwise the 0
percent tier; in particular a similarity of exactly 0.85 lands in the
80 percent tier, not the 100 percent tier. -/
theorem grade_answer_strict_tiers (s : ℚ) :
    (gradeAnswerScore s = 100 ↔ 85/100 < s)
  ∧ (gradeAnswerScore s = 80 ↔ 65/100 < s ∧ s ≤ 85/100)
  ∧ (gradeAnswerScore s = 40 ↔ 4/10 < s ∧ s ≤ 65/100)
  ∧ (gradeAnswerScore s = 0 ↔ s ≤ 4/10)
  ∧ gradeAnswerScore (85/100) = 80 := by
  have hb : gradeAnswerScore (85/100) = 80 := by norm_num [gradeAnswerScore]
  have htiers :
      (gradeAnswerScore s = 100 ↔ 85/100 < s)
    ∧ (gradeAnswerScore s = 80 ↔ 65/100 < s ∧ s ≤ 85/100)
    ∧ (gradeAnswerScore s = 40 ↔ 4/10 < s ∧ s ≤ 65/100)
    ∧ (gradeAnswerScore s = 0 ↔ s ≤ 4/10) := by
    unfold gradeAnswerScore
    split_ifs with h1 h2 h3
    · exact ⟨iff_of_true rfl h1,
        iff_of_false (by norm_num) (fun hc => absurd hc.2 (not_le.mpr h1)),
        iff_of_false (by norm_num) (fun hc => absurd hc.2 (by linarith)),
        iff_of_false (by norm_num) (by push_neg; linarith)⟩
    · exact ⟨iff_of_false (by norm_num) (fun hc => absurd hc h1),
        iff_of_true rfl ⟨h2, not_lt.mp h1⟩,
        iff_of_false (by norm_num) (fun hc => absurd hc.2 (not_le.mpr h2)),
        iff_of_false (by norm_num) (by push_neg; linarith)⟩
    · exact ⟨iff_of_false (by norm_num) (fun hc => absurd hc h1),
        iff_of_false (by norm_num) (fun hc => absurd hc.1 h2),
        iff_of_true rfl ⟨h3, not_lt.mp h2⟩,
        iff_of_false (by norm_num) (by push_neg; linarith)⟩
    · exact ⟨iff_of_false (by norm_num) (fun hc => absurd hc h1),
        iff_of_false (by norm_num) (fun hc => absurd hc.1 h2),
        iff_of_false (by norm_num) (fun hc => absurd hc.1 h3),
        iff_of_true rfl (not_lt.mp h3)⟩
  exact ⟨htiers.1, htiers.2.1, htiers.2.2.1, htiers.2.2.2, hb⟩

/-! ## C6: tier percentage scaled by item points -/

/-- C6: a free-text item worth 10 points graded at similarity 0.70
scores 8 — the 80 percent tier applied as a fraction of the point value
of the item, not the raw tier number 80 — and the feedback indicates a
partial match. -/
theorem free_text_scaled_score :
    gradeAnswerScore (7/10) = 80
  ∧ gradeFreeText 10 (7/10) = 8
  ∧ tierFeedback (7/10) = "Partial match" := by
  refine ⟨by norm_num [gradeAnswerScore], ?_, by norm_num [tierFeedback]⟩
  norm_num [gradeFreeText, gradeAnswerScore]

/-! ## C2: ability estimate is the fold of the update rule -/

theorem foldl_abilityStep_bounds (l : List ℚ) :
    ∀ a : ℚ, 1/10 ≤ a → a ≤ 1 →
      1/10 ≤ l.foldl abilityStep a ∧ l.foldl abilityStep a ≤ 1 := by
  induction l with
  | nil => exact fun a h1 h2 => ⟨h1, h2⟩
  | cons r l ih =>
    intro a h1 h2
    simp only [List.foldl_cons]
    apply ih
    · unfold abilityStep update_performance
      split_ifs
      · exact le_min (by norm_num) (by linarith)
      · exact le_max_left _ _
    · unfold abilityStep update_performance
      split_ifs
      · exact min_le_left _ _
      · exact max_le (by norm_num) (by linarith)

/-- C2: with adaptive mode enabled, after k graded responses the
ability estimate equals the fold of the deterministic update rule over
the k score ratios starting at 0.5 — a ratio of at least 60 percent
maps the estimate a to min 1 (a + 0.1) and any other ratio maps it to
max 0.1 (a - 0.1) — and the estimate always stays within [0.1, 1]. -/
theorem ability_estimate_fold (ratios : List ℚ) :
    abilityEstimate ratios =
      ratios.foldl
        (fun a r => if 3/5 ≤ r then min 1 (a + 1/10) else max (1/10) (a - 1/10))
        (1/2)
  ∧ 1/10 ≤ abilityEstimate ratios ∧ abilityEstimate ratios ≤ 1 := by
  have hfun : abilityStep = fun (a r : ℚ) =>
      if 3/5 ≤ r then min 1 (a + 1/10) else max (1/10) (a - 1/10) := by
    funext a r
    unfold abilityStep update_performance
    by_cases h : 3/5 ≤ r <;> simp [h]
  have hr := foldl_abilityStep_bounds ratios (1/2) (by norm_num) (by norm_num)
  exact ⟨by unfold abilityEstimate; rw [hfun], hr.1, hr.2⟩

/-! ## C3: select_next avoids served items, none exactly on exhaustion -/

/-- C3: select_next never returns an item already in the served set,
and it returns none exactly when every item of the pool has been served
(rather than failing on an exhausted pool). -/
theorem select_next_avoids_served (pool : List Item) (served : List ℕ) (ability : ℚ) :
    (∀ q, selectNext pool served ability = some q → q ∈ pool ∧ q.id ∉ served)
  ∧ (selectNext pool served ability = none ↔ ∀ q ∈ pool, q.id ∈ served) := by
  constructor
  · intro q hq
    unfold selectNext at hq
    cases hfil : candidatesOf pool served with
    | nil => rw [hfil] at hq; exact absurd hq (by simp)
    | cons c cs =>
      rw [hfil] at hq
      simp only [Option.some.injEq] at hq
      have hmem : q ∈ c :: cs := hq ▸ foldl_pickBetter_mem ability cs c
      rw [← hfil] at hmem
      exact (mem_candidatesOf pool served q).mp hmem
  · unfold selectNext
    cases hfil : candidatesOf pool served with
    | nil => simpa using (candidatesOf_eq_nil pool served).mp hfil
    | cons c cs =>
      simp only [reduceCtorEq, false_iff]
      intro hall
      have : candidatesOf pool served = [] := (candidatesOf_eq_nil pool served).mpr hall
      rw [hfil] at this
      exact absurd this (by simp)

/-! ## C7: select_next picks the closest item, ties to the lowest id -/

theorem leLex_refl (ability : ℚ) (q : Item) : leLex ability q q :=
  ⟨le_refl _, fun _ => le_refl _⟩

theorem leLex_trans (ability : ℚ) {a b c : Item}
    (hab : leLex ability a b) (hbc : leLex ability b c) : leLex ability a c := by
  refine ⟨le_trans hab.1 hbc.1, fun hca => ?_⟩
  have hdb : itemDist ability b = itemDist ability a :=
    le_antisymm (by rw [← hca]; exact hbc.1) hab.1
  have hcb : itemDist ability c = itemDist ability b := by rw [hdb, hca]
  exact le_trans (hab.2 hdb) (hbc.2 hcb)

theorem pickBetter_leLex_left (ability : ℚ) (b q : Item) :
    leLex ability (pickBetter ability b q) b := by
  unfold pickBetter
  split_ifs with h
  · rcases h with hlt | ⟨heq, hid⟩
    · exact ⟨le_of_lt hlt, fun hc => absurd hc (ne_of_gt hlt)⟩
    · exact ⟨le_of_eq heq, fun _ => le_of_lt hid⟩
  · exact leLex_refl ability b

theorem pickBetter_leLex_right (ability : ℚ) (b q : Item) :
    leLex ability (pickBetter ability b q) q := by
  unfold pickBetter
  split_ifs with h
  · exact leLex_refl ability q
  · push_neg at h
    exact ⟨h.1, h.2⟩

theorem foldl_pickBetter_min (ability : ℚ) (cs : List Item) (c : Item) :
    ∀ p ∈ c :: cs, leLex ability (cs.foldl (pickBetter ability) c) p := by
  induction cs generalizing c with
  | nil =>
    intro p hp
    rcases List.mem_cons.mp hp with rfl | hp2
    · exact leLex_refl ability p
    · exact absurd hp2 (List.not_mem_nil p)
  | cons x xs ih =>
    intro p hp
    simp only [List.foldl_cons]
    have hbase := ih (pickBetter ability c x) (pickBetter ability c x)
      (List.mem_cons_self _ _)
    rcases List.mem_cons.mp hp with rfl | hp2
    · exact leLex_trans ability hbase (pickBetter_leLex_left ability p x)
    rcases List.mem_cons.mp hp2 with rfl | hp3
    · exact leLex_trans ability hbase (pickBetter_leLex_right ability c p)
    · exact ih (pickBetter ability c x) p (List.mem_cons_of_mem _ hp3)

/-- C7: when some candidate item is unserved, select_next returns an
item, and the returned item has the smallest absolute difficulty
distance to the ability estimate among all unserved pool items, with
distance ties resolved towards the lowest item identity — so selection
is a deterministic function of the inputs. -/
theorem select_next_closest (pool : List Item) (served : List ℕ) (ability : ℚ)
    (q : Item) (hq : selectNext pool served ability = some q) :
    ∀ p ∈ pool, p.id ∉ served →
      itemDist ability q ≤ itemDist ability p
      ∧ (itemDist ability p = itemDist ability q → q.id ≤ p.id) := by
  intro p hp hps
  have hpc : p ∈ candidatesOf pool served :=
    (mem_candidatesOf pool served p).mpr ⟨hp, hps⟩
  unfold selectNext at hq
  cases hfil : candidatesOf pool served with
  | nil => rw [hfil] at hq; exact absurd hq (by simp)
  | cons c cs =>
    rw [hfil] at hq
    simp only [Option.some.injEq] at hq
    rw [hfil] at hpc
    exact hq ▸ foldl_pickBetter_min ability cs c p hpc

/-! ## C4: the fifth infraction forces completion -/

/-- C4: with proctoring enabled, recording the fifth infraction during
an in-progress attempt forces the submission through the same
completion path as the timeout transition — status becomes completed
and every served but unanswered item receives a zero-scored answer —
regardless of the remaining time (the statement quantifies over
submissions with any timeRemaining). -/
theorem fifth_infraction_completes (s : Submission)
    (hp : s.proctoringEnabled = true) (_hst : s.status = .inProgress)
    (hc : s.infractionCount = 4) :
    record_infraction s = sessionTimeout { s with infractionCount := 5 }
  ∧ (record_infraction s).status = .completed
  ∧ ∀ i ∈ s.served, (∀ a ∈ s.answers, a.itemId ≠ i) →
      ∃ a ∈ (record_infraction s).answers, a.itemId = i ∧ a.currentScore = 0 := by
  have hrec : record_infraction s = finishExam { s with infractionCount := 5 } := by
    unfold record_infraction
    rw [hp, hc]
    norm_num
  refine ⟨hrec, by rw [hrec]; rfl, ?_⟩
  intro i hi hun
  rw [hrec]
  have hserved : i ∈ unansweredServed { s with infractionCount := 5 } := by
    unfold unansweredServed
    simp only [List.mem_filter, decide_eq_true_eq]
    exact ⟨hi, hun⟩
  exact ⟨zeroAnswer i,
    List.mem_append_right _ (List.mem_map_of_mem zeroAnswer hserved), rfl, rfl⟩

/-! ## C5: finalization is one-way -/

/-- C5: a successful apply_review with finalize set makes the
submission finalized, with its total recomputed as the sum of the
current scores after the overrides, and every subsequent apply_review
on that submission fails with AlreadyFinalized (the operation returns
an error and hands back no modified state). -/
theorem apply_review_finalize_one_way (s s2 : Submission)
    (overrides : List ScoreOverride)
    (h : apply_review s overrides true = .ok s2) :
    s2.isFinalized = true ∧ s2.status = .finalized
  ∧ s2.totalScore = (s2.answers.map Answer.currentScore).sum
  ∧ ∀ os f, apply_review s2 os f = .error .alreadyFinalized := by
  unfold apply_review at h
  split_ifs at h with h1 h2 h3
  · simp only [Except.ok.injEq] at h
    subst h
    refine ⟨rfl, rfl, rfl, fun os f => ?_⟩
    unfold apply_review
    exact if_pos rfl
  · exact absurd rfl h3

/-! ## C9: out-of-range overrides are rejected outright -/

theorem find_answer_of_nodup (l : List Answer) (a : Answer) (k : ℕ)
    (hnd : (l.map Answer.answerId).Nodup) (ha : a ∈ l) (hk : a.answerId = k) :
    l.find? (fun x => x.answerId == k) = some a := by
  induction l with
  | nil => exact absurd ha (List.not_mem_nil a)
  | cons b l ih =>
    simp only [List.map_cons, List.nodup_cons] at hnd
    rcases List.mem_cons.mp ha with rfl | ha2
    · exact List.find?_cons_of_pos _ (by simp [hk])
    · have hbk : ¬ (b.answerId == k) = true := by
        simp only [beq_iff_eq]
        intro hEq
        exact hnd.1 (hEq ▸ hk ▸ List.mem_map_of_mem Answer.answerId ha2)
      have hstep : List.find? (fun x => x.answerId == k) (b :: l)
          = List.find? (fun x => x.answerId == k) l :=
        List.find?_cons_of_neg l hbk
      rw [hstep]
      exact ih hnd.2 ha2

/-- C9: apply_review fails with ScoreOutOfRange — returning an error
and no updated submission, so nothing is persisted — whenever some
override in the request carries a negative score or a score above the
point maximum of the answer it names (stated for a submission that is
not yet finalized, whose answers carry distinct identities). -/
theorem review_rejects_out_of_range (s : Submission)
    (overrides : List ScoreOverride) (finalize : Bool)
    (o : ScoreOverride) (a : Answer)
    (hfin : s.isFinalized = false)
    (hnd : (s.answers.map Answer.answerId).Nodup)
    (ho : o ∈ overrides) (ha : a ∈ s.answers) (hid : a.answerId = o.answerId)
    (hbad : o.score < 0 ∨ (a.maxPoints : ℚ) < o.score) :
    apply_review s overrides finalize = .error .scoreOutOfRange := by
  have hoor : overrideOutOfRange s o = true := by
    unfold overrideOutOfRange
    rw [find_answer_of_nodup s.answers a o.answerId hnd ha hid]
    simpa using hbad
  have hany : overrides.any (overrideOutOfRange s) = true :=
    List.any_eq_true.mpr ⟨o, ho, hoor⟩
  unfold apply_review
  rw [hfin]
  simp [hany]

/-! ## C8: multiple-choice grading is a case-insensitive trimmed match -/

/-- C8: multiple-choice grading awards the full item points exactly
when the submitted value equals the stored correct choice under
case-insensitive comparison after trimming, and awards 0 exactly
otherwise, with the fixed Correct feedback exactly on a match — this
presumes the stored correct choice and the submitted value range over
the same domain of choice keys. -/
theorem mcq_case_insensitive_grading (points : ℕ)
    (correctChoice submitted : String) (hp : 0 < points) :
    ((gradeMCQ points correctChoice submitted).1 = points ↔
        normalizeChoice submitted = normalizeChoice correctChoice)
  ∧ ((gradeMCQ points correctChoice submitted).1 = 0 ↔
        normalizeChoice submitted ≠ normalizeChoice correctChoice)
  ∧ ((gradeMCQ points correctChoice submitted).2 = "Correct" ↔
        normalizeChoice submitted = normalizeChoice correctChoice) := by
  unfold gradeMCQ
  split_ifs with h
  · exact ⟨iff_of_true rfl h, iff_of_false hp.ne' (not_not_intro h),
      iff_of_true rfl h⟩
  · exact ⟨iff_of_false hp.ne h, iff_of_true rfl h,
      iff_of_false (by decide) h⟩

/-! ## C10: passed classification in the result views -/

/-- C10 as stated is false: the results page classifies a submission
with percentage 39.6 and a false backend passed flag as passed, because
it rounds the percentage before comparing with 40, even though the
percentage is below 40. -/
theorem results_passed_below_forty :
    resultsPassed false (396/10) = true ∧ ¬ (40 ≤ (396/10 : ℚ)) := by
  constructor
  · norm_num [resultsPassed, jsRound, Int.le_floor]
  · norm_num

/-- C10 amended: the detailed-result view and the teacher review badge
classify a submission as passed exactly when its percentage is at least
the hardcoded constant 40, independently of the configured passing
ratio, while the results page classifies it as passed exactly when the
backend passed flag is set or the percentage rounded to the nearest
integer is at least 40. -/
theorem passed_views_amended (p : ℚ) (b : Bool) :
    (viewDetailedResultPassed p = true ↔ 40 ≤ p)
  ∧ (teacherReviewPassedBadge p = true ↔ 40 ≤ p)
  ∧ (resultsPassed b p = true ↔ (b = true ∨ 40 ≤ jsRound p)) := by
  refine ⟨by simp [viewDetailedResultPassed],
    by simp [teacherReviewPassedBadge], ?_⟩
  simp [resultsPassed]

/-! ## Witnesses instantiating the hypotheses of the claim theorems -/

/-- Witness for C3: on a two-item pool with nothing served, select_next
returns an item that is in the pool and unserved. -/
theorem select_next_avoids_served_witness :
    demoItemLow ∈ [demoItemHigh, demoItemLow] ∧ demoItemLow.id ∉ ([] : List ℕ) :=
  (select_next_avoids_served [demoItemHigh, demoItemLow] [] (1/2)).1 demoItemLow
    (by norm_num [selectNext, candidatesOf, pickBetter, itemDist,
      demoItemHigh, demoItemLow])

/-- Witness for C7: on two equal-distance items the selection resolves
the tie towards the lower identity. -/
theorem select_next_closest_witness :
    itemDist (1/2) demoItemLow ≤ itemDist (1/2) demoItemHigh
  ∧ (itemDist (1/2) demoItemHigh = itemDist (1/2) demoItemLow →
      demoItemLow.id ≤ demoItemHigh.id) :=
  select_next_closest [demoItemHigh, demoItemLow] [] (1/2) demoItemLow
    (by norm_num [selectNext, candidatesOf, pickBetter, itemDist,
      demoItemHigh, demoItemLow])
    demoItemHigh (by simp) (by simp)

/-- Witness for C4: the fifth infraction completes the demo proctored
submission and records a zero score for its served, unanswered item. -/
theorem fifth_infraction_completes_witness :
    (record_infraction proctorDemo).status = .completed
  ∧ ∃ a ∈ (record_infraction proctorDemo).answers,
      a.itemId = 7 ∧ a.currentScore = 0 :=
  ⟨(fifth_infraction_completes proctorDemo rfl rfl rfl).2.1,
   (fifth_infraction_completes proctorDemo rfl rfl rfl).2.2 7
     (by simp [proctorDemo]) (by simp [proctorDemo])⟩

/-- Witness for C5: overriding the demo answer from 8 to 10 with
finalize set raises the total by exactly 2, finalizes the submission,
and a subsequent review attempt fails with AlreadyFinalized. -/
theorem apply_review_finalize_one_way_witness :
    reviewDemoFinal.isFinalized = true
  ∧ reviewDemoFinal.totalScore = reviewDemo.totalScore + 2
  ∧ apply_review reviewDemoFinal [reviewDemoOverride] true
      = .error .alreadyFinalized :=
  ⟨(apply_review_finalize_one_way reviewDemo reviewDemoFinal
      [reviewDemoOverride]
      (by norm_num [apply_review, overrideOutOfRange, findOverride,
        reviewDemo, reviewDemoOverride, reviewDemoFinal])).1,
   by norm_num [reviewDemoFinal, reviewDemo],
   (apply_review_finalize_one_way reviewDemo reviewDemoFinal
      [reviewDemoOverride]
      (by norm_num [apply_review, overrideOutOfRange, findOverride,
        reviewDemo, reviewDemoOverride, reviewDemoFinal])).2.2.2
     [reviewDemoOverride] true⟩

/-- Witness for C9: an override of 11 on a 10-point answer is rejected
with ScoreOutOfRange. -/
theorem review_rejects_out_of_range_witness :
    apply_review reviewDemo [badOverride] false = .error .scoreOutOfRange :=
  review_rejects_out_of_range reviewDemo [badOverride] false badOverride
    { answerId := 1, itemId := 3, currentScore := 8, maxPoints := 10,
      teacherRemarks := "" }
    rfl (by simp [reviewDemo]) (by simp) (by simp [reviewDemo]) rfl
    (Or.inr (by norm_num [badOverride]))

/-- Witness for C8: with correct choice B, the submission b earns the
full 5 points. -/
theorem mcq_case_insensitive_grading_witness :
    (gradeMCQ 5 "B" "b").1 = 5 ∧ (0 : ℕ) < 5 :=
  ⟨(mcq_case_insensitive_grading 5 "B" "b" (by norm_num)).1.mpr (by decide),
   by norm_num⟩
